import Mathlib

/-!
Verification of the WSTP link library core: the expression wire codec
(`put_expr` / `get_expr`), the transport-address fallback (`for_each_addr`),
the native-open argument construction (`listen` / `connect_with_options`),
and the link error model (`error_or_unknown`).

The Rust sources are shallowly embedded: the loopback link is a FIFO list of
wire tokens, writes append tokens and reads consume them from the front.
Machine integers (`i64`) are modelled as `Int`; IEEE doubles are modelled
abstractly as a value that is NaN, an infinity, or a finite payload, since the
codec only passes them through without arithmetic.
-/

namespace Wstp

/-- Modelled from the spec: the `Error` type of the missing `error` module —
"optional numeric code plus human-readable message".  `lib.rs` constructs such
values both directly (`Error { code: Some(code), message }`) and through
`Error::custom(message)`, which carries no native numeric code. -/
structure Err where
  code : Option Int
  message : String
deriving DecidableEq

/-- Modelled from the spec: `Error::custom` builds an error from a bare
message, with no native error code attached. -/
def Err.custom (message : String) : Err :=
  { code := none, message := message }

/-- Model of an IEEE 754 double as the codec observes it: NaN, an infinity
(with sign), or a finite value carried abstractly (the codec never computes
with reals, it only passes them through). -/
inductive WF64 where
  | nan : WF64
  | inf (positive : Bool) : WF64
  | finite (val : Int) : WF64
deriving DecidableEq

/-- Modelled from the spec: `wl_expr::F64`, the real-number payload of an
`Expr`.  `F64::new` rejects NaN (the decode arm in `lib.rs` binds the failure
as `_is_nan`, and the spec's decode step 3 fails exactly on NaN), so the type
itself has no NaN inhabitant. -/
inductive F64 where
  | inf (positive : Bool) : F64
  | finite (val : Int) : F64
deriving DecidableEq

/-- Modelled from the spec: `wl_expr::F64::new`, the fallible constructor used
by the decoder; it fails exactly on NaN. -/
def F64.new : WF64 → Option F64
  | WF64.nan => none
  | WF64.inf b => some (F64.inf b)
  | WF64.finite v => some (F64.finite v)

/-- The underlying double of an `F64` (the `**real` deref in `put_expr`). -/
def F64.toWF64 : F64 → WF64
  | F64.inf b => WF64.inf b
  | F64.finite v => WF64.finite v

/-- The Wolfram context separator, the backtick character (code point 96). -/
def contextSep : Char := Char.ofNat 96

/-- Modelled from the spec: a symbol name is context-qualified when it
contains the namespace separator. -/
def hasContext (s : String) : Bool := s.data.contains contextSep

/-- Modelled from the spec: `wl_expr::Symbol`, a symbol name that is
context-qualified by construction (glossary: "a symbol name containing a
namespace separator identifying its defining context"). -/
def Symbol := { s : String // hasContext s = true }

instance : DecidableEq Symbol := fun a b =>
  match a, b with
  | ⟨s, _⟩, ⟨t, _⟩ =>
    if h : s = t then
      Decidable.isTrue (Subtype.ext h)
    else
      Decidable.isFalse (fun hc => h (congrArg Subtype.val hc))

/-- Modelled from the spec: `wl_expr::Symbol::new`, failing when the name
lacks a context qualifier. -/
def Symbol.new (s : String) : Option Symbol :=
  if h : hasContext s = true then some ⟨s, h⟩ else none

/-- Modelled from the spec: the `wl_expr::Expr` tree — variant over
Normal(head, contents), Symbol(qualified name), String(text),
Integer(64-bit signed), Real(64-bit float, never NaN). -/
inductive Expr where
  | normal (head : Expr) (contents : List Expr) : Expr
  | symbol (sym : Symbol) : Expr
  | str (s : String) : Expr
  | int (i : Int) : Expr
  | real (r : F64) : Expr

/-- Modelled from the spec: one wire token, "a type tag plus payload, one of
Integer, Real, String, Symbol, Function(arity)".  `tokOther` stands for any
raw tag outside the recognized set (the `_` arm of `get_expr`). -/
inductive Token where
  | tokInt (i : Int) : Token
  | tokReal (r : WF64) : Token
  | tokStr (s : String) : Token
  | tokSym (s : String) : Token
  | tokFunc (argc : Nat) : Token
  | tokOther (tag : Int) : Token

/-- A loopback link's pending data: a FIFO queue of wire tokens.  `put_*`
primitives append at the back, `get_*` primitives consume from the front. -/
abbrev LoopbackLink := List Token

mutual

/-- `Link::put_expr` from `lib.rs`: the token sequence appended to the link
when an expression is written.  Normal(head, contents) writes the Function
tag with the argument count, then the head, then each element of `contents`
in order; the leaf variants write their single typed token (the typed `put_*`
primitives of the missing `put` module are modelled as single-token
appends). -/
def put_expr : Expr → List Token
  | Expr.normal head contents =>
      Token.tokFunc contents.length :: (put_expr head ++ put_expr_list contents)
  | Expr.symbol sym => [Token.tokSym sym.val]
  | Expr.str s => [Token.tokStr s]
  | Expr.int i => [Token.tokInt i]
  | Expr.real r => [Token.tokReal r.toWF64]

/-- The `for elem in contents { self.put_expr(elem)?; }` loop of
`Link::put_expr`: tokens of the elements, concatenated left to right. -/
def put_expr_list : List Expr → List Token
  | [] => []
  | e :: es => put_expr e ++ put_expr_list es

end

/-- Error produced when the decoder reads from an exhausted link: the native
`WSGetNext` returns the error token and `get_raw_type` surfaces
`error_or_unknown` (here with no pending error recorded). -/
def readFailedErr : Err := Err.custom "unknown error occurred on WSLINK"

/-- Artificial fuel-exhaustion error of the fueled decoder.  The Rust
`get_expr` recurses without fuel; every recursive call first consumes at
least one token, so running the fueled model with fuel exceeding the number
of pending tokens never reaches this case (see `get_expr`). -/
def fuelErr : Err := Err.custom "recursion fuel exhausted"

/-- The `for _ in 0..arg_count { contents.push(link.get_expr()?); }` loop of
the Function arm of `get_expr`: decode exactly `n` expressions in order with
the decoder `dec`, collecting them left to right. -/
def get_args_f (dec : List Token → Except Err (Expr × List Token)) :
    Nat → List Token → Except Err (List Expr × List Token)
  | 0, ts => Except.ok ([], ts)
  | n + 1, ts =>
    match dec ts with
    | Except.error e => Except.error e
    | Except.ok (e, ts₁) =>
      match get_args_f dec n ts₁ with
      | Except.error e => Except.error e
      | Except.ok (es, ts₂) => Except.ok (e :: es, ts₂)

/-- The recursive decoder `get_expr` from `lib.rs`, with explicit fuel
bounding the recursion depth.  It reads one raw type tag and dispatches:
Integer and String pass through, Real goes through `F64::new` (failing on
NaN), Symbol goes through `Symbol::new` (failing without a context), Function
reads the argument count then the head then that many arguments, and any
other tag fails with the unknown-type error. -/
def get_expr_f : Nat → List Token → Except Err (Expr × List Token)
  | 0, _ => Except.error fuelErr
  | _ + 1, [] => Except.error readFailedErr
  | fuel + 1, t :: ts =>
    match t with
    | Token.tokInt i => Except.ok (Expr.int i, ts)
    | Token.tokReal r =>
      match F64.new r with
      | some f => Except.ok (Expr.real f, ts)
      | none =>
          Except.error
            (Err.custom "NaN value passed on WSLINK cannot be used to construct an Expr")
    | Token.tokStr s => Except.ok (Expr.str s, ts)
    | Token.tokSym s =>
      match Symbol.new s with
      | some sym => Except.ok (Expr.symbol sym, ts)
      | none =>
          Except.error
            (Err.custom ("Symbol name `" ++ s ++ "` has no context"))
    | Token.tokFunc argc =>
      match get_expr_f fuel ts with
      | Except.error e => Except.error e
      | Except.ok (head, ts₁) =>
        match get_args_f (get_expr_f fuel) argc ts₁ with
        | Except.error e => Except.error e
        | Except.ok (contents, ts₂) => Except.ok (Expr.normal head contents, ts₂)
    | Token.tokOther tag =>
        Except.error (Err.custom ("unknown WSLINK type: " ++ toString tag))

/-- The decoder run on a link's pending tokens.  The Rust recursion is
unbounded but consumes at least one token before every recursive call, so a
fuel of one more than the number of pending tokens is never exhausted. -/
def get_expr (ts : List Token) : Except Err (Expr × List Token) :=
  get_expr_f (ts.length + 1) ts

/-- `for_each_addr` from `lib.rs`, with the candidate-address type and the
attempt function generic exactly as in the source (the source fixes the
address type to `net::SocketAddr`, but its logic never inspects an address):
the loop body, threading the most recent error. -/
def for_each_addr_go {α T : Type} (func : α → Except Err T) :
    List α → Option Err → Except Err T
  | [], lastError =>
      Except.error (lastError.getD (Err.custom "socket address list is empty"))
  | a :: rest, _ =>
    match func a with
    | Except.ok result => Except.ok result
    | Except.error e => for_each_addr_go func rest (some e)

/-- `for_each_addr` from `lib.rs`: try each address in order, return the
first success; if all fail, return the last error; if the list is empty,
return the distinct empty-list error. -/
def for_each_addr {α T : Type} (addrs : List α) (func : α → Except Err T) :
    Except Err T :=
  for_each_addr_go func addrs none

/-- `true` exactly when the attempt produced a connection (an `Ok` value). -/
def succeeded {T : Type} : Except Err T → Bool
  | Except.ok _ => true
  | Except.error _ => false

/-- The `Protocol` enum from `lib.rs`. -/
inductive Protocol where
  | IntraProcess : Protocol
  | SharedMemory : Protocol
  | TCPIP : Protocol
deriving DecidableEq

/-- The `Display` implementation for `Protocol` from `lib.rs`. -/
def Protocol.display : Protocol → String
  | Protocol.IntraProcess => "IntraProcess"
  | Protocol.SharedMemory => "SharedMemory"
  | Protocol.TCPIP => "TCPIP"

/-- `Link::listen` from `lib.rs`: the argument list it passes to
`Link::open_with_args` (and hence to the native `WSOpenArgcArgv` call). -/
def listen_args (protocol : Protocol) (name : String) : List String :=
  ["-wstp", "-linkmode", "listen", "-linkprotocol", protocol.display,
   "-linkname", name, "-linkoptions", "MLDontInteract"]

/-- `Link::connect_with_options` from `lib.rs`: the argument list it passes
to `Link::open_with_args`; the `-linkoptions` flag and the options are
appended only when the option list is non-empty. -/
def connect_with_options_args (protocol : Protocol) (name : String)
    (options : List String) : List String :=
  ["-wstp", "-linkmode", "connect", "-linkprotocol", protocol.display,
   "-linkname", name]
    ++ (if options.isEmpty then [] else "-linkoptions" :: options)

/-- `Link::connect` from `lib.rs`: delegates to `connect_with_options` with
an empty option slice. -/
def connect_args (protocol : Protocol) (name : String) : List String :=
  connect_with_options_args protocol name []

/-- Argument-list builder following the spec's words for
`build_open_arguments(protocol, name, options)`: the six-element prefix
followed directly by the option strings. -/
def build_open_arguments (mode : String) (protocol : Protocol) (name : String)
    (options : List String) : List String :=
  ["-wstp", "-linkmode", mode, "-linkprotocol", protocol.display,
   "-linkname", name] ++ options

/-- The `MLEOK` status constant of the native library (no error pending). -/
def MLEOK : Int := 0

/-- The `WSTKERR` token constant of the native library (read failure). -/
def WSTKERR : Int := 0

/-- The native error state observable on a link: the code returned by
`WSError` and the message returned by `WSErrorMessage` (`none` models a null
pointer). -/
structure LinkErrState where
  code : Int
  message : Option String
deriving DecidableEq

/-- `Link::error` from `lib.rs`: `None` when the code is `MLEOK` or the
message pointer is null, otherwise the error with that code and message. -/
def link_error (st : LinkErrState) : Option Err :=
  match st.message with
  | none => none
  | some msg =>
    if st.code = MLEOK then none else some { code := some st.code, message := msg }

/-- `Link::error_or_unknown` from `lib.rs`: the pending error, or the custom
unknown-error value when none is pending. -/
def error_or_unknown (st : LinkErrState) : Err :=
  (link_error st).getD (Err.custom "unknown error occurred on WSLINK")

/-- `Link::activate` from `lib.rs`: the native call returning 0 signals
failure, surfaced through `error_or_unknown`. -/
def activate (nativeRet : Int) (st : LinkErrState) : Except Err Unit :=
  if nativeRet = 0 then Except.error (error_or_unknown st) else Except.ok ()

/-- `Link::flush` from `lib.rs`: same failure discipline as `activate`. -/
def flush (nativeRet : Int) (st : LinkErrState) : Except Err Unit :=
  if nativeRet = 0 then Except.error (error_or_unknown st) else Except.ok ()

/-- `Link::transfer_expr_to` from `lib.rs`: same failure discipline, with the
error attributed to the source link's state. -/
def transfer_expr_to (nativeRet : Int) (sourceSt : LinkErrState) :
    Except Err Unit :=
  if nativeRet = 0 then Except.error (error_or_unknown sourceSt) else Except.ok ()

/-- `Link::raw_get_next` from `lib.rs`: the native token type, unless it is
the `WSTKERR` sentinel, which is surfaced through `error_or_unknown`. -/
def raw_get_next (nativeRet : Int) (st : LinkErrState) : Except Err Int :=
  if nativeRet = WSTKERR then Except.error (error_or_unknown st) else Except.ok nativeRet

mutual

/-- Nesting depth of an expression: the recursion depth both `put_expr` and
`get_expr` reach on it. -/
def depth : Expr → Nat
  | Expr.normal head contents => max (depth head) (depth_list contents) + 1
  | Expr.symbol _ => 1
  | Expr.str _ => 1
  | Expr.int _ => 1
  | Expr.real _ => 1

/-- Largest nesting depth among a list of expressions. -/
def depth_list : List Expr → Nat
  | [] => 0
  | e :: es => max (depth e) (depth_list es)

end

mutual

/-- `true` when the expression contains no non-finite Real component (its
`F64` payloads have no NaN inhabitant, so only infinities count as
non-finite). -/
def realsFinite : Expr → Bool
  | Expr.normal head contents => realsFinite head && realsFinite_list contents
  | Expr.symbol _ => true
  | Expr.str _ => true
  | Expr.int _ => true
  | Expr.real (F64.inf _) => false
  | Expr.real (F64.finite _) => true

/-- `true` when every expression in the list has only finite Real
components. -/
def realsFinite_list : List Expr → Bool
  | [] => true
  | e :: es => realsFinite e && realsFinite_list es

end

/-! ## Lemmas about the embedded definitions -/

theorem F64.new_toWF64 (f : F64) : F64.new f.toWF64 = some f := by
  cases f <;> rfl

theorem Symbol.new_val (sym : Symbol) : Symbol.new sym.val = some sym := by
  obtain ⟨s, h⟩ := sym
  simp [Symbol.new, h]

theorem put_expr_list_eq_flatten (es : List Expr) :
    put_expr_list es = (es.map put_expr).flatten := by
  induction es with
  | nil => rfl
  | cons e es ih => simp [put_expr_list, ih]

theorem get_args_f_length (dec : List Token → Except Err (Expr × List Token)) :
    ∀ (n : Nat) (ts : List Token) (es : List Expr) (rest : List Token),
      get_args_f dec n ts = Except.ok (es, rest) → es.length = n := by
  intro n
  induction n with
  | zero =>
    intro ts es rest h
    simp only [get_args_f] at h
    cases h
    rfl
  | succ n ih =>
    intro ts es rest h
    simp only [get_args_f] at h
    cases hd : dec ts with
    | error e => simp [hd] at h
    | ok p =>
      obtain ⟨e₁, ts₁⟩ := p
      simp only [hd] at h
      cases hargs : get_args_f dec n ts₁ with
      | error e => simp [hargs] at h
      | ok q =>
        obtain ⟨es₂, ts₂⟩ := q
        simp only [hargs, Except.ok.injEq, Prod.mk.injEq] at h
        obtain ⟨h1, h2⟩ := h
        subst h1
        simp [ih ts₁ es₂ ts₂ hargs]

mutual

theorem depth_pos (e : Expr) : 1 ≤ depth e := by
  match e with
  | Expr.normal head contents => simp [depth]
  | Expr.symbol _ => simp [depth]
  | Expr.str _ => simp [depth]
  | Expr.int _ => simp [depth]
  | Expr.real _ => simp [depth]

end

mutual

theorem depth_le_put_length (e : Expr) : depth e ≤ (put_expr e).length := by
  match e with
  | Expr.normal head contents =>
    have h1 := depth_le_put_length head
    have h2 := depth_list_le_put_length contents
    simp only [depth, put_expr, List.length_cons, List.length_append]
    omega
  | Expr.symbol _ => simp [depth, put_expr]
  | Expr.str _ => simp [depth, put_expr]
  | Expr.int _ => simp [depth, put_expr]
  | Expr.real _ => simp [depth, put_expr]

theorem depth_list_le_put_length (es : List Expr) :
    depth_list es ≤ (put_expr_list es).length := by
  match es with
  | [] => simp [depth_list, put_expr_list]
  | e :: es =>
    have h1 := depth_le_put_length e
    have h2 := depth_list_le_put_length es
    simp only [depth_list, put_expr_list, List.length_append]
    omega

end

mutual

theorem get_put_expr_aux (e : Expr) :
    ∀ (fuel : Nat) (rest : List Token), realsFinite e = true → depth e ≤ fuel →
      get_expr_f fuel (put_expr e ++ rest) = Except.ok (e, rest) := by
  match e with
  | Expr.normal head contents =>
    intro fuel rest hfin hfuel
    match fuel with
    | 0 => exact absurd hfuel (by simp [depth])
    | f + 1 =>
      simp only [realsFinite, Bool.and_eq_true] at hfin
      have hdh : depth head ≤ f := by
        have := hfuel; simp only [depth] at this; omega
      have hdc : depth_list contents ≤ f := by
        have := hfuel; simp only [depth] at this; omega
      simp only [put_expr, List.cons_append, List.append_assoc, get_expr_f,
        List.append_eq,
        get_put_expr_aux head f (put_expr_list contents ++ rest) hfin.1 hdh,
        get_put_args_aux contents f rest hfin.2 hdc]

  | Expr.symbol sym =>
    intro fuel rest _ hfuel
    match fuel with
    | 0 => exact absurd hfuel (by simp [depth])
    | f + 1 =>
      simp only [put_expr, List.cons_append, List.nil_append, get_expr_f,
        List.append_eq, Symbol.new_val sym]
  | Expr.str s =>
    intro fuel rest _ hfuel
    match fuel with
    | 0 => exact absurd hfuel (by simp [depth])
    | f + 1 => simp [put_expr, get_expr_f]
  | Expr.int i =>
    intro fuel rest _ hfuel
    match fuel with
    | 0 => exact absurd hfuel (by simp [depth])
    | f + 1 => simp [put_expr, get_expr_f]
  | Expr.real r =>
    intro fuel rest _ hfuel
    match fuel with
    | 0 => exact absurd hfuel (by simp [depth])
    | f + 1 =>
      simp only [put_expr, List.cons_append, List.nil_append, get_expr_f,
        List.append_eq, F64.new_toWF64 r]

theorem get_put_args_aux (es : List Expr) :
    ∀ (fuel : Nat) (rest : List Token),
      realsFinite_list es = true → depth_list es ≤ fuel →
      get_args_f (get_expr_f fuel) es.length (put_expr_list es ++ rest)
        = Except.ok (es, rest) := by
  match es with
  | [] =>
    intro fuel rest _ _
    simp [put_expr_list, get_args_f]
  | e :: es =>
    intro fuel rest hfin hfuel
    simp only [realsFinite_list, Bool.and_eq_true] at hfin
    simp only [depth_list, Nat.max_le] at hfuel
    simp only [put_expr_list, List.length_cons, List.append_assoc, get_args_f,
      List.append_eq,
      get_put_expr_aux e fuel (put_expr_list es ++ rest) hfin.1 hfuel.1,
      get_put_args_aux es fuel rest hfin.2 hfuel.2]

end

theorem for_each_addr_go_first_success {α T : Type}
    (func : α → Except Err T) (x : α) (post : List α)
    (hx : succeeded (func x) = true) :
    ∀ (pre : List α), (∀ a ∈ pre, succeeded (func a) = false) →
      ∀ (last : Option Err),
        for_each_addr_go func (pre ++ x :: post) last = func x := by
  intro pre
  induction pre with
  | nil =>
    intro _ last
    simp only [List.nil_append, for_each_addr_go]
    cases hfx : func x with
    | ok r => rfl
    | error e => rw [hfx] at hx; simp [succeeded] at hx
  | cons a pre ih =>
    intro hpre last
    simp only [List.cons_append, for_each_addr_go]
    cases hfa : func a with
    | ok r =>
      have := hpre a (by simp)
      rw [hfa] at this
      simp [succeeded] at this
    | error e => exact ih (fun b hb => hpre b (by simp [hb])) (some e)

theorem for_each_addr_go_all_fail {α T : Type}
    (func : α → Except Err T) (x : α) :
    ∀ (pre : List α), (∀ a ∈ pre ++ [x], succeeded (func a) = false) →
      ∀ (last : Option Err),
        for_each_addr_go func (pre ++ [x]) last = func x := by
  intro pre
  induction pre with
  | nil =>
    intro hall last
    have hx := hall x (by simp)
    simp only [List.nil_append, for_each_addr_go]
    cases hfx : func x with
    | ok r => exact absurd hx (by simp [hfx, succeeded])
    | error e => simp [for_each_addr_go, hfx]
  | cons a pre ih =>
    intro hall last
    have ha := hall a (by simp)
    simp only [List.cons_append, for_each_addr_go]
    cases hfa : func a with
    | ok r => exact absurd ha (by simp [hfa, succeeded])
    | error e => exact ih (fun b hb => hall b (List.mem_cons_of_mem a hb)) (some e)

/-! ## The claims -/

/-- C1: for every Expression value `e` containing no non-finite Real
component, encoding `e` onto a loopback link with `put_expr` and then
decoding with `get_expr` returns an Expression structurally equal to `e`
(consuming the whole encoding).  Symbol payloads are context-qualified by
construction of the `Symbol` type, mirroring `wl_expr::Symbol`. -/
theorem expr_roundtrip (e : Expr) (hfin : realsFinite e = true) :
    get_expr (put_expr e) = Except.ok (e, []) := by
  have h := get_put_expr_aux e ((put_expr e).length + 1) [] hfin
    (le_trans (depth_le_put_length e) (Nat.le_succ _))
  simpa [get_expr] using h

/-- Witness for C1, at the expression `System`Plus[2, 3]`. -/
theorem expr_roundtrip_witness :
    realsFinite (Expr.normal (Expr.symbol ⟨"System`Plus", by decide⟩)
        [Expr.int 2, Expr.int 3]) = true
    ∧ get_expr (put_expr (Expr.normal (Expr.symbol ⟨"System`Plus", by decide⟩)
          [Expr.int 2, Expr.int 3]))
        = Except.ok (Expr.normal (Expr.symbol ⟨"System`Plus", by decide⟩)
            [Expr.int 2, Expr.int 3], []) :=
  ⟨by decide, expr_roundtrip _ (by decide)⟩

/-- C2: `for_each_addr` tries the candidates in input order and returns the
result of the first attempt that succeeds; if every attempt fails it returns
the error from the last attempt; and on an empty candidate list it returns
the distinct address-resolution error (it is a total function, so it never
panics, and the empty case is an error, never a silent success). -/
theorem for_each_addr_fallback {α T : Type} (func : α → Except Err T)
    (addrs : List α) :
    (∀ (pre : List α) (x : α) (post : List α),
        addrs = pre ++ x :: post →
        (∀ a ∈ pre, succeeded (func a) = false) →
        succeeded (func x) = true →
        for_each_addr addrs func = func x)
    ∧ ((∀ a ∈ addrs, succeeded (func a) = false) →
        ∀ (pre : List α) (x : α), addrs = pre ++ [x] →
          for_each_addr addrs func = func x)
    ∧ for_each_addr ([] : List α) func
        = Except.error (Err.custom "socket address list is empty") := by
  refine ⟨?_, ?_, rfl⟩
  · intro pre x post haddrs hpre hx
    rw [haddrs]
    exact for_each_addr_go_first_success func x post hx pre hpre none
  · intro hall pre x haddrs
    rw [haddrs]
    exact for_each_addr_go_all_fail func x pre (haddrs ▸ hall) none

/-- Witness for C2: candidates `[0, 1, 2]` where only `2` succeeds yield the
connection obtained via `2`. -/
theorem for_each_addr_fallback_witness :
    for_each_addr [0, 1, 2]
        (fun n : Nat =>
          if n = 2 then Except.ok n else Except.error (Err.custom "fail"))
      = Except.ok 2 :=
  ((for_each_addr_fallback
      (fun n : Nat =>
        if n = 2 then Except.ok n else Except.error (Err.custom "fail"))
      [0, 1, 2]).1 [0, 1] 2 [] rfl (by decide) (by decide)).trans rfl

/-- C3 counterexample: with a non-empty option list, `connect_with_options`
inserts the `-linkoptions` flag before the options, so the native argument
list is not the six-element prefix followed directly by the option strings. -/
theorem connect_args_not_spec_shape :
    connect_with_options_args Protocol.TCPIP "testname" ["MLDontInteract"]
      ≠ build_open_arguments "connect" Protocol.TCPIP "testname"
          ["MLDontInteract"] := by
  decide

/-- C3 amended: the argument list passed to the native open call is the
six-element prefix `["-wstp", "-linkmode", mode, "-linkprotocol", protocol,
"-linkname", name]` followed, in connect mode, by the `-linkoptions` flag and
then the option strings when the option list is non-empty (and by nothing
when it is empty), and, in listen mode, by the fixed pair
`["-linkoptions", "MLDontInteract"]`. -/
theorem open_arguments_amended (protocol : Protocol) (name : String)
    (options : List String) :
    connect_with_options_args protocol name options
      = build_open_arguments "connect" protocol name
          (if options.isEmpty then [] else "-linkoptions" :: options)
    ∧ listen_args protocol name
        = build_open_arguments "listen" protocol name
            ["-linkoptions", "MLDontInteract"] :=
  ⟨rfl, rfl⟩

/-- C4: when the decoder reads a Function tag it reads the (non-negative,
modelled as `Nat`) argument count, recursively decodes exactly one head
expression, then exactly that many argument expressions in order, and
assembles a Normal node from that head and that argument sequence. -/
theorem get_expr_function_tag (fuel argc : Nat) (ts : List Token) :
    (get_expr_f (fuel + 1) (Token.tokFunc argc :: ts)
      = (get_expr_f fuel ts).bind fun hp =>
          (get_args_f (get_expr_f fuel) argc hp.2).bind fun ap =>
            Except.ok (Expr.normal hp.1 ap.1, ap.2))
    ∧ (∀ (e : Expr) (rest : List Token),
        get_expr_f (fuel + 1) (Token.tokFunc argc :: ts)
          = Except.ok (e, rest) →
        ∃ (head : Expr) (ts₁ : List Token) (contents : List Expr),
          get_expr_f fuel ts = Except.ok (head, ts₁)
          ∧ get_args_f (get_expr_f fuel) argc ts₁ = Except.ok (contents, rest)
          ∧ e = Expr.normal head contents
          ∧ contents.length = argc) := by
  constructor
  · cases h1 : get_expr_f fuel ts with
    | error e => simp [get_expr_f, h1, Except.bind]
    | ok p =>
      obtain ⟨head, ts₁⟩ := p
      cases h2 : get_args_f (get_expr_f fuel) argc ts₁ with
      | error e => simp [get_expr_f, h1, h2, Except.bind]
      | ok q =>
        obtain ⟨contents, ts₂⟩ := q
        simp [get_expr_f, h1, h2, Except.bind]
  · intro e rest h
    simp only [get_expr_f] at h
    cases h1 : get_expr_f fuel ts with
    | error e' => simp [h1] at h
    | ok p =>
      obtain ⟨head, ts₁⟩ := p
      simp only [h1] at h
      cases h2 : get_args_f (get_expr_f fuel) argc ts₁ with
      | error e' => simp [h2] at h
      | ok q =>
        obtain ⟨contents, ts₂⟩ := q
        simp only [h2, Except.ok.injEq, Prod.mk.injEq] at h
        obtain ⟨h3, h4⟩ := h
        subst h4
        exact ⟨head, ts₁, contents, rfl, h2, h3.symm,
          get_args_f_length (get_expr_f fuel) argc ts₁ contents _ h2⟩

/-- Witness for C4, decoding the wire form of `System`Plus[2, 3]`. -/
theorem get_expr_function_tag_witness :
    ∃ (head : Expr) (ts₁ : List Token) (contents : List Expr),
      get_expr_f 3 [Token.tokSym "System`Plus", Token.tokInt 2, Token.tokInt 3]
        = Except.ok (head, ts₁)
      ∧ get_args_f (get_expr_f 3) 2 ts₁ = Except.ok (contents, [])
      ∧ Expr.normal (Expr.symbol ⟨"System`Plus", by decide⟩)
          [Expr.int 2, Expr.int 3] = Expr.normal head contents
      ∧ contents.length = 2 :=
  (get_expr_function_tag 3 2
      [Token.tokSym "System`Plus", Token.tokInt 2, Token.tokInt 3]).2
    (Expr.normal (Expr.symbol ⟨"System`Plus", by decide⟩)
      [Expr.int 2, Expr.int 3]) [] rfl

/-- C5: encoding `Normal(head, args)` writes the Function tag with an
argument count equal to the length of `args`, then the encoding of `head`,
then the encodings of the elements of `args` concatenated in left-to-right
order. -/
theorem put_expr_normal_layout (head : Expr) (args : List Expr) :
    put_expr (Expr.normal head args)
      = Token.tokFunc args.length
          :: (put_expr head ++ (args.map put_expr).flatten) := by
  simp [put_expr, put_expr_list_eq_flatten]

/-- C6: decoding a Symbol tag whose name lacks a context qualifier fails with
the domain error (no node is constructed), and otherwise yields the Symbol
node with that name. -/
theorem get_expr_symbol_tag (fuel : Nat) (s : String) (ts : List Token) :
    (hasContext s = false →
      get_expr_f (fuel + 1) (Token.tokSym s :: ts)
        = Except.error
            (Err.custom ("Symbol name `" ++ s ++ "` has no context")))
    ∧ (∀ h : hasContext s = true,
        get_expr_f (fuel + 1) (Token.tokSym s :: ts)
          = Except.ok (Expr.symbol ⟨s, h⟩, ts)) := by
  constructor
  · intro h
    simp [get_expr_f, Symbol.new, h]
  · intro h
    simp [get_expr_f, Symbol.new, h]

/-- Witness for C6: `Plus` (no context) fails with the domain error, while
`System`Plus` decodes to the Symbol node. -/
theorem get_expr_symbol_tag_witness :
    (get_expr_f 1 [Token.tokSym "Plus"]
      = Except.error
          (Err.custom ("Symbol name `" ++ "Plus" ++ "` has no context")))
    ∧ get_expr_f 1 [Token.tokSym "System`Plus"]
        = Except.ok (Expr.symbol ⟨"System`Plus", by decide⟩, []) :=
  ⟨(get_expr_symbol_tag 0 "Plus" []).1 (by decide),
   (get_expr_symbol_tag 0 "System`Plus" []).2 (by decide)⟩

/-- C7 counterexample: a Real token carrying positive infinity — a non-finite
value that is not NaN — decodes successfully to a Real node holding that
infinity, so decode does not fail on every non-finite Real, and decoded Real
nodes are not always finite. -/
theorem get_expr_real_infinity_decodes :
    get_expr_f 1 [Token.tokReal (WF64.inf true)]
      = Except.ok (Expr.real (F64.inf true), []) := rfl

/-- C7 amended: a Real node produced by decode never holds NaN: when the
decoder reads a Real tag carrying NaN it fails with the domain error and
produces no node, and any non-NaN value (finite or infinite) decodes to a
Real node holding exactly that value. -/
theorem get_expr_real_tag (fuel : Nat) (r : WF64) (ts : List Token) :
    (r = WF64.nan →
      get_expr_f (fuel + 1) (Token.tokReal r :: ts)
        = Except.error
            (Err.custom
              "NaN value passed on WSLINK cannot be used to construct an Expr"))
    ∧ (∀ f : F64, F64.new r = some f →
        get_expr_f (fuel + 1) (Token.tokReal r :: ts)
          = Except.ok (Expr.real f, ts))
    ∧ (r ≠ WF64.nan → ∃ f : F64, F64.new r = some f ∧ f.toWF64 = r) := by
  refine ⟨?_, ?_, ?_⟩
  · intro h
    subst h
    rfl
  · intro f hf
    simp [get_expr_f, hf]
  · intro h
    cases r with
    | nan => exact absurd rfl h
    | inf b => exact ⟨F64.inf b, rfl, rfl⟩
    | finite v => exact ⟨F64.finite v, rfl, rfl⟩

/-- Witness for C7 (amended), at NaN and at a finite value. -/
theorem get_expr_real_tag_witness :
    (get_expr_f 1 [Token.tokReal WF64.nan]
      = Except.error
          (Err.custom
            "NaN value passed on WSLINK cannot be used to construct an Expr"))
    ∧ get_expr_f 1 [Token.tokReal (WF64.finite 7)]
        = Except.ok (Expr.real (F64.finite 7), []) :=
  ⟨(get_expr_real_tag 0 WF64.nan []).1 rfl,
   (get_expr_real_tag 0 (WF64.finite 7) []).2.1 (F64.finite 7) rfl⟩

/-- C9: whenever a native operation (activate, flush, read, or transfer)
reports failure while the link has no pending recorded error, the operation
returns the Error value with no numeric code and the message
"unknown error occurred on WSLINK". -/
theorem error_or_unknown_no_pending (st : LinkErrState)
    (h : link_error st = none) :
    error_or_unknown st
        = { code := none, message := "unknown error occurred on WSLINK" }
    ∧ activate 0 st
        = Except.error
            { code := none, message := "unknown error occurred on WSLINK" }
    ∧ flush 0 st
        = Except.error
            { code := none, message := "unknown error occurred on WSLINK" }
    ∧ transfer_expr_to 0 st
        = Except.error
            { code := none, message := "unknown error occurred on WSLINK" }
    ∧ raw_get_next WSTKERR st
        = Except.error
            { code := none, message := "unknown error occurred on WSLINK" } := by
  have hu : error_or_unknown st
      = { code := none, message := "unknown error occurred on WSLINK" } := by
    simp [error_or_unknown, h, Err.custom]
  exact ⟨hu, by simp [activate, hu], by simp [flush, hu],
    by simp [transfer_expr_to, hu], by simp [raw_get_next, hu]⟩

/-- Witness for C9, on a link whose code is `MLEOK` and whose message
pointer is null. -/
theorem error_or_unknown_no_pending_witness :
    link_error ⟨0, none⟩ = none
    ∧ activate 0 ⟨0, none⟩
        = Except.error
            { code := none, message := "unknown error occurred on WSLINK" } :=
  ⟨rfl, (error_or_unknown_no_pending ⟨0, none⟩ rfl).2.1⟩

/-- C10: `connect(protocol, name)` produces exactly the argument list of
`connect_with_options(protocol, name, [])`, and with an empty option list
that list is just the six-element prefix — the `-linkoptions` flag is
omitted entirely. -/
theorem connect_refines_with_options (protocol : Protocol) (name : String) :
    connect_args protocol name = connect_with_options_args protocol name []
    ∧ connect_with_options_args protocol name []
        = ["-wstp", "-linkmode", "connect", "-linkprotocol",
           protocol.display, "-linkname", name] :=
  ⟨rfl, rfl⟩

end Wstp
